import Mathlib

/-!
Verification development for the request-router / connection-gate codebase.

Each definition below is a shallow embedding of a function of the repository:
  - `smart_agent_selector`, `classifyDomains`, `team_member_count`
      from `ubik-cli-standalone/ubik_agno.py` (`smart_agent_selector`,
      `create_dynamic_team`);
  - `required_apps`, `check_required_apps`, `process_query_gate`,
    `clean_response`, `updateHistory`
      from `fastapi-server/src/app/services/composio.py`
      (`ComposioService.check_required_apps`, `clean_response`,
      `process_query`);
  - `run_with_retry` from `agno2.py` (`EnhancedTeamRunner.run_with_retry`);
  - `connect_app` from `agno2.py` (`EnhancedComposioManager.connect_app`);
  - `check_connections` from `ubik-cli-standalone/ubik_agno.py`;
  - `User_save` / `create_user` from
    `fastapi-server/src/app/models/composio.py` and `db/database.py`.

External collaborators (the LLM, the Composio API, the orchestration
engine, time) are modelled as explicit inputs: a function from the attempt
number to that attempt's outcome stands for the nondeterministic external
service, and sleeps are recorded as a list of delay durations instead of
being performed.
-/

deriving instance DecidableEq for Except

/-- Python's `needle in hay` substring test on strings. -/
def pyIn (needle hay : String) : Bool := decide (needle.data <:+: hay.data)

/-- Python's `s.lower()`: per-character ASCII lowercasing (all keywords
the code compares against are ASCII). -/
def pyLower (s : String) : String := ⟨s.data.map Char.toLower⟩

/-- Python's `", ".join(xs)`. -/
def joinComma : List String → String
  | [] => ""
  | [a] => a
  | a :: rest => a ++ ", " ++ joinComma rest

/-! ## Classifier (`smart_agent_selector` and `create_dynamic_team`) -/

/-- The two fields of the parsed classifier reply that the code reads:
`selection.get("agents", [])` and `selection.get("needs_filesystem", False)`.
`none` models an absent key. -/
structure Selection where
  agents : Option (List String)
  needs_filesystem : Option Bool
deriving DecidableEq

/-- Outcome of `json.loads(response.content.strip())` on the classifier
model's reply: either the call raises (malformed JSON) or it yields an
object, abstracted by the two fields the code ever reads. -/
inductive SelectorReply where
  | malformed (raw : String)
  | parsedObj (sel : Selection)
deriving DecidableEq

/-- Embedding of `smart_agent_selector` (ubik_agno.py lines 37-44): the
parsed JSON object is returned as-is; only a `json.loads` exception is
caught and replaced by the dict with agents `["search"]` and
needs_filesystem `False`. -/
def smart_agent_selector : SelectorReply → Selection
  | .malformed _ => ⟨some ["search"], some false⟩
  | .parsedObj sel => sel

/-- The keys of `tool_configs` in `create_dynamic_team`. -/
def tool_config_keys : List String := ["gmail", "calendar", "weather", "search", "drive"]

/-- `needed_agents = selection.get("agents", [])` in `create_dynamic_team`. -/
def neededAgents (sel : Selection) : List String := sel.agents.getD []

/-- `needs_filesystem = selection.get("needs_filesystem", False)`. -/
def needsFilesystem (sel : Selection) : Bool := sel.needs_filesystem.getD false

/-- Resolved domains of the routing decision produced from a classifier
reply: the `agents` list the callers extract from `smart_agent_selector`'s
result. -/
def classifyDomains (r : SelectorReply) : List String :=
  neededAgents (smart_agent_selector r)

/-- Number of workers in the team `create_dynamic_team` builds from a
classifier reply: the selected agents that name a `tool_configs` entry,
plus the filesystem agent when requested (ubik_agno.py lines 110-152). -/
def team_member_count (r : SelectorReply) : Nat :=
  let sel := smart_agent_selector r
  ((neededAgents sel).filter (fun a => tool_config_keys.contains a)).length
  + (if needsFilesystem sel then 1 else 0)

/-! ## Connection gate of the HTTP service (`check_required_apps`) -/

/-- Embedding of the keyword table in `ComposioService.check_required_apps`
(composio.py lines 445-470): the list `required_apps` accumulated for a
query. -/
def required_apps (query : String) : List String :=
  let q := pyLower query
  (if ["email", "mail", "gmail"].any (fun w => pyIn w q)
      || ["send", "draft"].any (fun w => pyIn w q)
   then ["gmail"] else [])
  ++ (if ["calendar", "schedule", "event"].any (fun w => pyIn w q)
      then ["googlecalendar"] else [])
  ++ (if ["weather", "temperature", "forecast"].any (fun w => pyIn w q)
      then ["weathermap"] else [])
  ++ (if ["drive", "googledrive", "create file", "save file", "upload",
          "download", "document", "folder"].any (fun w => pyIn w q)
        || ["save it in", "save in", "create a file"].any (fun p => pyIn p q)
      then ["googledrive"] else [])

/-- The `ValueError` message raised by `check_required_apps`. -/
def connectMsg (missing : List String) : String :=
  "Please connect the following apps first: " ++ joinComma missing

/-- Embedding of `check_required_apps` (composio.py lines 445-481):
`.ok` models `return True`, `.error` models the raised `ValueError`. -/
def check_required_apps (query : String) (connected_apps : List String) :
    Except String Unit :=
  let req := required_apps query
  if req.isEmpty then .ok ()
  else
    let missing := req.filter (fun a => !connected_apps.contains a)
    if missing.isEmpty then .ok () else .error (connectMsg missing)

/-- The gate prefix of `process_query` (composio.py lines 499-507): the
connection check runs before the team is created and run; `runAttempted`
records whether control ever reaches `team.run`. -/
structure QueryGateStep where
  outcome : Except String Unit
  runAttempted : Bool

/-- Embedding of the start of `ComposioService.process_query`: the
`check_required_apps` exception propagates before any run is attempted. -/
def process_query_gate (query : String) (connected_apps : List String) :
    QueryGateStep :=
  match check_required_apps query connected_apps with
  | .error m => ⟨.error m, false⟩
  | .ok _ => ⟨.ok (), true⟩

/-! ## Chat history bound (`process_query` tail) -/

/-- One chat-history entry as built in `process_query` (composio.py lines
542-547). -/
structure ChatEntry where
  query : String
  response : String
  timestamp : String
deriving DecidableEq

/-- Embedding of the history update in `process_query` (lines 549-551):
`user.chat_history.append(chat_entry)` followed by
`if len(...) > 5: chat_history = chat_history[-5:]`. -/
def updateHistory (h : List ChatEntry) (e : ChatEntry) : List ChatEntry :=
  let h' := h ++ [e]
  if h'.length > 5 then h'.drop (h'.length - 5) else h'

/-! ## Run supervisor (`EnhancedTeamRunner.run_with_retry`) -/

/-- Outcome of one `team.arun` call: either a response with content, or a
raised exception with its text. -/
inductive AttemptResult where
  | ok (content : String)
  | raises (msg : String)
deriving DecidableEq

/-- One `conversation_history` entry as appended by `run_with_retry`
(agno2.py lines 477-506); the float timestamp is omitted. -/
structure HistEntry where
  request : String
  success : Bool
  response : Option String
  error : Option String
deriving DecidableEq

/-- How control leaves `run_with_retry`: a returned response, a propagated
exception, or the loop falling through (Python would return `None`). -/
inductive RunOutcome where
  | returned (content : String)
  | raised (msg : String)
  | noneReturned
deriving DecidableEq

/-- Trace of one `run_with_retry` call: its outcome, the `asyncio.sleep`
durations performed, and the `conversation_history` entries appended. -/
structure RunTrace where
  outcome : RunOutcome
  delays : List Nat
  history : List HistEntry
deriving DecidableEq

/-- The `for attempt in range(max_retries)` loop of `run_with_retry`
(agno2.py lines 463-507), iterating over the remaining attempt indices.
`att i` is the outcome the orchestration engine produces at attempt `i`. -/
def runWithRetryLoop (att : Nat → AttemptResult) (message : String)
    (maxRetries : Nat) : List Nat → List Nat → List HistEntry → RunTrace
  | [], delays, hist => ⟨.noneReturned, delays, hist⟩
  | i :: rest, delays, hist =>
    match att i with
    | .ok c => ⟨.returned c, delays, hist ++ [⟨message, true, some c, none⟩]⟩
    | .raises e =>
      if i < maxRetries - 1 then
        runWithRetryLoop att message maxRetries rest (delays ++ [2 ^ i]) hist
      else
        ⟨.raised e, delays, hist ++ [⟨message, false, none, some e⟩]⟩

/-- Embedding of `EnhancedTeamRunner.run_with_retry` with the default
`max_retries = 3`: on an exception it sleeps `2 ** attempt` seconds and
retries while attempts remain; after the last attempt it appends a failed
history entry and re-raises. -/
def run_with_retry (att : Nat → AttemptResult) (message : String)
    (maxRetries : Nat := 3) : RunTrace :=
  runWithRetryLoop att message maxRetries (List.range maxRetries) [] []

/-! ## Connection manager (`EnhancedComposioManager.connect_app`) -/

/-- The `ConnectionStatus` enum of agno2.py. -/
inductive PyConnectionStatus where
  | connected
  | disconnected
  | error
  | pending
deriving DecidableEq

/-- The `ConnectionResult` dataclass of agno2.py. -/
structure ConnectionResult where
  success : Bool
  status : PyConnectionStatus
  message : String
  connection_id : Option String := none
  auth_url : Option String := none
  error : Option String := none
deriving DecidableEq

/-- Outcome of one external call that may raise. -/
inductive Step (α : Type) where
  | ok (val : α)
  | raises (msg : String)
deriving DecidableEq

/-- What `entity.initiate_connection(...)` returns: the attributes the code
reads from the connection request object. -/
structure ConnReq where
  redirectUrl : Option String
  connectedAccountId : Option String
deriving DecidableEq

/-- External-world behaviour visible to one iteration of `connect_app`:
the result of `check_connection_status` (which never raises), of
`get_entity`, and of the two `initiate_connection` parameter conventions. -/
structure AttemptEnv where
  check : ConnectionResult
  getEntity : Step Unit
  initApp : Step ConnReq
  initAppName : Step ConnReq

/-- Trace of one `connect_app` call: the returned `ConnectionResult`, the
`time.sleep` durations performed, and how many `initiate_connection`
requests were issued. -/
structure ConnectTrace where
  result : ConnectionResult
  delays : List Nat
  initiations : Nat
deriving DecidableEq

/-- The pending-result constructor of `connect_app` (agno2.py lines
138-150). -/
def pendingResult (app : String) (req : ConnReq) : ConnectionResult :=
  ⟨true, .pending, "Connection initiated for " ++ app,
    req.connectedAccountId, req.redirectUrl, none⟩

/-- The error-result constructor of `connect_app` (agno2.py lines 158-164). -/
def failedResult (app : String) (e : String) : ConnectionResult :=
  ⟨false, .error, "Failed to connect to " ++ app, none, none, some e⟩

/-- The `for attempt in range(max_retries)` loop of `connect_app`
(agno2.py lines 105-170). Per iteration: an already-connected status
returns immediately; an exception from `get_entity` hits the outer
handler; a failure of both `initiate_connection` conventions sleeps 2s and
retries, or on the last attempt re-raises into the outer handler, which
returns the error record. -/
def connectAppLoop (env : Nat → AttemptEnv) (app : String) (maxRetries : Nat) :
    List Nat → List Nat → Nat → ConnectTrace
  | [], delays, inits =>
    ⟨⟨false, .error, "Max retries exceeded for " ++ app, none, none, none⟩,
      delays, inits⟩
  | i :: rest, delays, inits =>
    let a := env i
    if a.check.status = .connected then
      ⟨⟨true, .connected, "Already connected to " ++ app,
          a.check.connection_id, none, none⟩, delays, inits⟩
    else
      match a.getEntity with
      | .raises e =>
        if i < maxRetries - 1 then
          connectAppLoop env app maxRetries rest (delays ++ [2]) inits
        else ⟨failedResult app e, delays, inits⟩
      | .ok _ =>
        match a.initApp with
        | .ok req => ⟨pendingResult app req, delays, inits + 1⟩
        | .raises _ =>
          match a.initAppName with
          | .ok req => ⟨pendingResult app req, delays, inits + 2⟩
          | .raises e2 =>
            if i < maxRetries - 1 then
              connectAppLoop env app maxRetries rest (delays ++ [2]) (inits + 2)
            else ⟨failedResult app e2, delays, inits + 2⟩

/-- Embedding of `EnhancedComposioManager.connect_app` with its constants
`max_retries = 3` and `retry_delay = 2`. The bare `except Exception`
handler means every path returns a `ConnectionResult`; no raising outcome
exists at this boundary. -/
def connect_app (env : Nat → AttemptEnv) (app : String) : ConnectTrace :=
  connectAppLoop env app 3 (List.range 3) [] 0

/-! ## CLI connection check (`check_connections`, ubik_agno.py) -/

/-- One record of `entity.get_connections()`, with the two attributes the
code reads. -/
structure ConnRecord where
  appName : String
  status : String

/-- Outcome of `get_entity` + `get_connections` for the session: the
external service either yields the user's connection records or raises. -/
inductive ExtConn where
  | ok (conns : List ConnRecord)
  | raises (msg : String)

/-- `auth_required_agents` (ubik_agno.py line 51). -/
def auth_required_agents : List String := ["gmail", "calendar", "drive"]

/-- `app_mapping.get(agent_type, agent_type)` (ubik_agno.py lines 59-65). -/
def app_mapping (t : String) : String :=
  if t = "gmail" then "gmail"
  else if t = "calendar" then "googlecalendar"
  else if t = "drive" then "googledrive"
  else t

/-- The `is_connected = any(...)` test (ubik_agno.py lines 67-71). -/
def isConnectedCheck (conns : List ConnRecord) (app_name : String) : Bool :=
  conns.any (fun c =>
    pyLower c.appName == pyLower app_name
    && (pyLower c.status == "active" || pyLower c.status == "connected"))

/-- State threaded through `check_connections`: the `connection_status`
dict and the list of agents for which an external authorization query was
issued. -/
structure CheckTrace where
  connection_status : String → Option Bool
  external_calls : List String

/-- One iteration of the `for agent_type in needed_agents` loop
(ubik_agno.py lines 53-80): auth-required agents query the external
service (an exception marks them `False`); all others are marked `True`
with no external call. -/
def checkStep (ext : ExtConn) (tr : CheckTrace) (agent : String) : CheckTrace :=
  if auth_required_agents.contains agent then
    match ext with
    | .raises _ =>
      ⟨fun k => if k = agent then some false else tr.connection_status k,
        tr.external_calls ++ [agent]⟩
    | .ok conns =>
      ⟨fun k => if k = agent
          then some (isConnectedCheck conns (app_mapping agent))
          else tr.connection_status k,
        tr.external_calls ++ [agent]⟩
  else
    ⟨fun k => if k = agent then some true else tr.connection_status k,
      tr.external_calls⟩

/-- Embedding of `check_connections` (ubik_agno.py lines 47-82). -/
def check_connections (ext : ExtConn) (needed_agents : List String) : CheckTrace :=
  needed_agents.foldl (checkStep ext) ⟨fun _ => none, []⟩

/-! ## User store (`User.save`, `Database.create_user`, `create_user`) -/

/-- One `users` row apart from its key (database.py lines 21-29). -/
structure Row where
  name : String
  entity_id : String
  connected_apps : List String
  chat_history : List ChatEntry
deriving DecidableEq

/-- The users table: one row per email, in insertion order. -/
abbrev DBState : Type := List (String × Row)

/-- The in-memory `User` pydantic model (models/composio.py), without the
timestamp. -/
structure PyUser where
  email : String
  name : String
  entity_id : String
  connected_apps : List String
  chat_history : List ChatEntry
deriving DecidableEq

/-- `SELECT * FROM users WHERE email = ?` (database.py lines 57-70). -/
def dbGetUser (db : DBState) (email : String) : Option Row :=
  (db.find? (fun p => p.1 == email)).map (fun p => p.2)

/-- `Database.create_user` (database.py lines 35-55): inserts a fresh row
with empty `connected_apps` and `chat_history`. -/
def dbCreateUser (db : DBState) (email name entity_id : String) : DBState :=
  db ++ [(email, ⟨name, entity_id, [], []⟩)]

/-- Embedding of `User.save` (models/composio.py lines 26-29): insert only
when no row with this email exists; always return the in-memory user. -/
def User_save (db : DBState) (u : PyUser) : DBState × PyUser :=
  match dbGetUser db u.email with
  | some _ => (db, u)
  | none => (dbCreateUser db u.email u.name u.entity_id, u)

/-- Embedding of `ComposioService.create_user` (composio.py lines 128-137):
build the in-memory user with `entity_id = email` and empty lists, then
`user.save()`. -/
def create_user (db : DBState) (email name : String) : DBState × PyUser :=
  User_save db ⟨email, name, email, [], []⟩

/-! ## Response sanitizer (`ComposioService.clean_response`) -/

/-- The internal diagnostic markers stripped by `clean_response`
(composio.py line 489). -/
def markers : List String := ["completed in", "transfer_task_to_member", "_fetch_"]

/-- Python's `text.split('\n')` on the character list. -/
def splitLines : List Char → List (List Char)
  | [] => [[]]
  | c :: rest =>
    if c = '\n' then [] :: splitLines rest
    else
      match splitLines rest with
      | [] => [[c]]
      | l :: ls => (c :: l) :: ls

/-- Python's `'\n'.join(lines)`. -/
def joinLines : List (List Char) → List Char
  | [] => []
  | [l] => l
  | l :: ls => l ++ '\n' :: joinLines ls

/-- The per-line filter of `clean_response`: keep a line iff it contains
none of the markers (`if not any(skip in line for skip in [...])`). -/
def keepLine (l : List Char) : Bool :=
  ! markers.any (fun m => decide (m.data <:+: l))

/-- One pass of Python's `text.replace('\n\n\n', '\n\n')`: scan left to
right, rewriting each non-overlapping occurrence. -/
def replace3to2 : List Char → List Char
  | c1 :: c2 :: c3 :: rest =>
    if c1 = '\n' ∧ c2 = '\n' ∧ c3 = '\n' then '\n' :: '\n' :: replace3to2 rest
    else c1 :: replace3to2 (c2 :: c3 :: rest)
  | c :: rest => c :: replace3to2 rest
  | [] => []

/-- The loop guard `'\n\n\n' in text`. -/
def contains3 (s : List Char) : Bool := decide (['\n', '\n', '\n'] <:+: s)

/-- The `while '\n\n\n' in text` loop, unrolled on a fuel argument; each
pass of `replace3to2` strictly shortens a string containing the pattern,
so fuel `s.length` always suffices (see `collapseGo_no_triple`). -/
def collapseGo : Nat → List Char → List Char
  | 0, s => s
  | fuel + 1, s => if contains3 s then collapseGo fuel (replace3to2 s) else s

/-- The newline-collapsing loop of `clean_response` (composio.py lines
494-495). -/
def collapseNewlines (s : List Char) : List Char := collapseGo s.length s

/-- The characters Python's `str.strip()` removes. -/
def isSpaceChar (c : Char) : Bool :=
  c = ' ' || c = '\t' || c = '\n' || c = '\r' || c = '\x0b' || c = '\x0c'

/-- Python's `text.strip()`. -/
def pyStrip (s : List Char) : List Char :=
  ((s.dropWhile isSpaceChar).reverse.dropWhile isSpaceChar).reverse

/-- Embedding of `ComposioService.clean_response` (composio.py lines
483-497) on the character list: drop marker lines, rejoin, collapse runs
of 3+ newlines, strip. -/
def cleanChars (t : List Char) : List Char :=
  pyStrip (collapseNewlines (joinLines ((splitLines t).filter keepLine)))

/-- `clean_response` on strings. -/
def clean_response (t : String) : String := ⟨cleanChars t.data⟩

/-! ## Concrete instances used by witnesses and counterexamples -/

/-- An environment whose external service reports no existing connection
and whose initiation calls always raise, under both parameter
conventions. -/
def envAllFail : Nat → AttemptEnv := fun _ =>
  ⟨⟨true, .disconnected, "No connection found for gmail", none, none, none⟩,
    .ok (), .raises "boom1", .raises "boom2"⟩

/-- An environment whose external service reports no existing connection
and whose initiation call succeeds, yielding an auth URL: the state of a
user who has not yet completed the OAuth flow. -/
def envPending : Nat → AttemptEnv := fun _ =>
  ⟨⟨true, .disconnected, "No connection found for gmail", none, none, none⟩,
    .ok (), .ok ⟨some "https://auth.example/redirect", some "cid-1"⟩,
    .ok ⟨some "https://auth.example/redirect", some "cid-1"⟩⟩

/-- An environment whose external service reports the app as already
connected. -/
def envConnected : Nat → AttemptEnv := fun _ =>
  ⟨⟨true, .connected, "Connection status for gmail: ACTIVE", some "cid-7",
      none, none⟩,
    .ok (), .raises "unused", .raises "unused"⟩

/-- Six distinct chat entries, for exercising the history bound. -/
def es6 : List ChatEntry :=
  [⟨"q1", "r1", "t1"⟩, ⟨"q2", "r2", "t2"⟩, ⟨"q3", "r3", "t3"⟩,
   ⟨"q4", "r4", "t4"⟩, ⟨"q5", "r5", "t5"⟩, ⟨"q6", "r6", "t6"⟩]

/-- A one-row users table for the duplicate-email scenario. -/
def db1 : DBState := [("a@b.c", ⟨"Old Name", "old-entity", ["gmail"], []⟩)]

/-! ## C1: non-empty resolved domains -/

/-- Claim C1 is false on the code: a classifier reply that parses
successfully to the object with an empty `agents` list is returned
unchanged by `smart_agent_selector`, so the resolved-domains list is empty
and `create_dynamic_team` builds a team with zero workers; the default
`["search"]` is not substituted. -/
theorem C1_counterexample :
    classifyDomains (.parsedObj ⟨some [], some false⟩) = [] ∧
    team_member_count (.parsedObj ⟨some [], some false⟩) = 0 ∧
    classifyDomains (.parsedObj ⟨some [], some false⟩) ≠ ["search"] := by
  decide

/-- C1 as amended: the classifier substitutes the default `["search"]`
decision exactly when the reply fails JSON parsing; a successfully parsed
reply is passed through, and the resolved-domains list is empty precisely
when the parsed object's `agents` key is absent or maps to the empty
list. -/
theorem C1_classify_fallback_law :
    (∀ raw, classifyDomains (.malformed raw) = ["search"]) ∧
    (∀ r, classifyDomains r = [] ↔
      ∃ sel, r = .parsedObj sel ∧ (sel.agents = none ∨ sel.agents = some [])) := by
  refine ⟨fun raw => rfl, fun r => ?_⟩
  cases r with
  | malformed raw =>
    simp [classifyDomains, smart_agent_selector, neededAgents]
  | parsedObj sel =>
    obtain ⟨ag, fs⟩ := sel
    cases ag with
    | none => simp [classifyDomains, smart_agent_selector, neededAgents]
    | some l =>
      cases l <;>
        simp [classifyDomains, smart_agent_selector, neededAgents]

/-! ## C3: fallback on parse failure -/

/-- Claim C3 is false on the code: a reply that is valid JSON naming an
unknown domain is not replaced by the default decision; it is returned as
parsed. -/
theorem C3_counterexample :
    smart_agent_selector (.parsedObj ⟨some ["foobar"], some false⟩)
        ≠ ⟨some ["search"], some false⟩ ∧
    classifyDomains (.parsedObj ⟨some ["foobar"], some false⟩) ≠ ["search"] := by
  decide

/-- C3 as amended: `smart_agent_selector` returns the designated default
decision (agents `["search"]`, needs_filesystem `false`) exactly for
replies whose JSON parsing raises; every successfully parsed reply —
including one naming unknown domains or missing fields — is returned
unchanged. -/
theorem C3_default_only_on_malformed :
    (∀ raw, smart_agent_selector (.malformed raw) = ⟨some ["search"], some false⟩) ∧
    (∀ sel, smart_agent_selector (.parsedObj sel) = sel) :=
  ⟨fun _ => rfl, fun _ => rfl⟩

/-! ## C10: saving an existing user is a no-op on the store -/

/-- Claim C10: when a row with the email already exists, `create_user`
leaves the table untouched and still returns the freshly built in-memory
user (entity_id = email, empty app and history lists). -/
theorem C10_create_user_existing_email_noop (db : DBState) (email name : String)
    (r : Row) (h : dbGetUser db email = some r) :
    (create_user db email name).1 = db ∧
    (create_user db email name).2 = ⟨email, name, email, [], []⟩ := by
  unfold create_user User_save
  simp only [h]
  trivial

/-- Witness for C10 on a concrete one-row table whose stored fields differ
from the freshly constructed user. -/
theorem C10_witness :
    (create_user db1 "a@b.c" "New Name").1 = db1 ∧
    (create_user db1 "a@b.c" "New Name").2 = ⟨"a@b.c", "New Name", "a@b.c", [], []⟩ :=
  C10_create_user_existing_email_noop db1 "a@b.c" "New Name"
    ⟨"Old Name", "old-entity", ["gmail"], []⟩ (by decide)

/-! ## C2: run retry and exhaustion behaviour -/

/-- Claim C2 is false on the code: when all three attempts raise,
`run_with_retry` does not return a failed result — it appends a failed
history entry and re-raises the exception to the caller (outcome
`.raised`, not `.returned`). -/
theorem C2_counterexample :
    run_with_retry (fun _ => .raises "boom") "req"
      = ⟨.raised "boom", [1, 2], [⟨"req", false, none, some "boom"⟩]⟩ := by
  decide

/-- C2 as amended: `run_with_retry` retries the whole run on any exception
for up to 3 attempts with doubling backoff (1s then 2s); a run failing
twice then succeeding returns the third attempt's content after exactly
those two delays; when all 3 attempts fail it records a history entry with
success=false carrying the error text and re-raises the last exception
instead of returning a result. -/
theorem C2_retry_behaviour (e0 e1 c m : String) (f : Nat → String) :
    run_with_retry
        (fun n => if n = 0 then .raises e0 else if n = 1 then .raises e1 else .ok c) m
      = ⟨.returned c, [1, 2], [⟨m, true, some c, none⟩]⟩ ∧
    run_with_retry (fun n => .raises (f n)) m
      = ⟨.raised (f 2), [1, 2], [⟨m, false, none, some (f 2)⟩]⟩ :=
  ⟨rfl, rfl⟩

/-! ## C5: connection-initiation retry policy -/

/-- Claim C5: when the app is never reported connected and both
`initiate_connection` conventions raise on every attempt, `connect_app`
performs exactly two fixed 2-second sleeps, then returns (rather than
raises) the error record carrying the last exception's text. -/
theorem C5_connect_app_retry (env : Nat → AttemptEnv) (app : String)
    (a b : Nat → String)
    (hc : ∀ i, (env i).check.status ≠ .connected)
    (hg : ∀ i, (env i).getEntity = .ok ())
    (h1 : ∀ i, (env i).initApp = .raises (a i))
    (h2 : ∀ i, (env i).initAppName = .raises (b i)) :
    connect_app env app = ⟨failedResult app (b 2), [2, 2], 6⟩ := by
  have hr : List.range 3 = [0, 1, 2] := rfl
  unfold connect_app
  rw [hr]
  simp [connectAppLoop, hc, hg, h1, h2]

/-- Witness for C5 at a concrete environment. -/
theorem C5_witness :
    connect_app envAllFail "gmail" = ⟨failedResult "gmail" "boom2", [2, 2], 6⟩ :=
  C5_connect_app_retry envAllFail "gmail" (fun _ => "boom1") (fun _ => "boom2")
    (fun _ => by simp [envAllFail]) (fun _ => rfl) (fun _ => rfl) (fun _ => rfl)

/-! ## C6: idempotence of ensure -/

/-- Claim C6 is false on the code: with unchanged external state in which
the domain is not yet connected (the user has not completed the OAuth
flow), a repeated `connect_app` call is the same pure function of that
state, and this call issues one `initiate_connection` request — so the
second call in a back-to-back pair issues a new initiation request rather
than none. -/
theorem C6_counterexample :
    (connect_app envPending "gmail").result.status = .pending ∧
    (connect_app envPending "gmail").initiations = 1 := by
  decide

/-- C6 as amended: with no external state change the second call returns
the same status as the first (the result is a deterministic function of
the environment); when the external service already reports the domain
connected, the call returns the connected record immediately and issues no
initiation request — but for a not-yet-connected domain every call,
including the second, issues a fresh initiation. -/
theorem C6_ensure_idempotent_when_connected (env : Nat → AttemptEnv)
    (app : String) (h : (env 0).check.status = .connected) :
    (connect_app env app).result.status = .connected ∧
    (connect_app env app).initiations = 0 ∧
    (connect_app env app).result.message = "Already connected to " ++ app := by
  have hr : List.range 3 = [0, 1, 2] := rfl
  unfold connect_app
  rw [hr]
  simp [connectAppLoop, h]

/-- Witness for C6 at a concrete already-connected environment. -/
theorem C6_witness :
    (connect_app envConnected "gmail").result.status = .connected ∧
    (connect_app envConnected "gmail").initiations = 0 ∧
    (connect_app envConnected "gmail").result.message = "Already connected to gmail" :=
  C6_ensure_idempotent_when_connected envConnected "gmail" rfl


/-! ## C9: domains outside the authorization-required set -/

/-- Processing an agent outside the authorization-required set marks it
connected. -/
theorem checkStep_status_self_no_auth (ext : ExtConn) (tr : CheckTrace)
    (agent : String) (hna : agent ∉ auth_required_agents) :
    (checkStep ext tr agent).connection_status agent = some true := by
  unfold checkStep
  simp [hna]

/-- Processing one agent leaves every other agent's status entry
unchanged. -/
theorem checkStep_status_other (ext : ExtConn) (tr : CheckTrace)
    (x agent : String) (hne : ¬ agent = x) :
    (checkStep ext tr x).connection_status agent = tr.connection_status agent := by
  unfold checkStep
  split
  · cases ext <;> simp [hne]
  · simp [hne]

/-- An agent outside the authorization-required set is never added to the
external-call log by any step. -/
theorem checkStep_calls_no_auth (ext : ExtConn) (tr : CheckTrace)
    (x agent : String) (hna : agent ∉ auth_required_agents)
    (hcalls : agent ∉ tr.external_calls) :
    agent ∉ (checkStep ext tr x).external_calls := by
  unfold checkStep
  split
  · rename_i hx
    have hxmem : x ∈ auth_required_agents := by simpa using hx
    have hne : agent ≠ x := fun h => hna (h ▸ hxmem)
    cases ext <;>
      · intro hmem
        rcases List.mem_append.mp hmem with h | h
        · exact hcalls h
        · exact hne (List.mem_singleton.mp h)
  · exact hcalls

/-- Loop invariant for `check_connections`: once an agent outside
`auth_required_agents` has been processed (or is still pending in the
remaining list), the final status map reports it `True`, and it never
appears in the external-call log. -/
theorem checkConnections_loop_no_auth (ext : ExtConn) (agent : String)
    (hna : agent ∉ auth_required_agents) :
    ∀ (rest : List String) (tr : CheckTrace),
      (agent ∈ rest ∨ tr.connection_status agent = some true) →
      agent ∉ tr.external_calls →
      (List.foldl (checkStep ext) tr rest).connection_status agent = some true ∧
      agent ∉ (List.foldl (checkStep ext) tr rest).external_calls := by
  intro rest
  induction rest with
  | nil =>
    intro tr hst hcalls
    rcases hst with h | h
    · exact absurd h (List.not_mem_nil agent)
    · exact ⟨h, hcalls⟩
  | cons x rest ih =>
    intro tr hst hcalls
    rw [List.foldl_cons]
    have hcalls' : agent ∉ (checkStep ext tr x).external_calls :=
      checkStep_calls_no_auth ext tr x agent hna hcalls
    apply ih
    · by_cases hx : agent = x
      · right
        subst hx
        exact checkStep_status_self_no_auth ext tr agent hna
      · rcases hst with h | h
        · rcases List.mem_cons.mp h with h' | h'
          · exact absurd h' hx
          · exact Or.inl h'
        · right
          rw [checkStep_status_other ext tr x agent hx]
          exact h
    · exact hcalls'

/-- Claim C9: for every external-service behaviour, an agent outside the
authorization-required set that appears in the needed list is reported
connected by `check_connections`, and no external authorization query is
issued for it. -/
theorem C9_no_auth_always_connected (ext : ExtConn) (needed : List String)
    (agent : String) (hmem : agent ∈ needed)
    (hna : agent ∉ auth_required_agents) :
    (check_connections ext needed).connection_status agent = some true ∧
    agent ∉ (check_connections ext needed).external_calls := by
  unfold check_connections
  exact checkConnections_loop_no_auth ext agent hna needed ⟨fun _ => none, []⟩
    (Or.inl hmem) (List.not_mem_nil agent)

/-- Witness for C9: the weather domain with a raising external service. -/
theorem C9_witness :
    (check_connections (.raises "service down") ["weather", "gmail"]).connection_status
        "weather" = some true ∧
    "weather" ∉ (check_connections (.raises "service down")
        ["weather", "gmail"]).external_calls :=
  C9_no_auth_always_connected (.raises "service down") ["weather", "gmail"]
    "weather" (by decide) (by decide)

/-! ## C4: gate failure surfaces before any run -/

/-- A member of a comma-joined list is a substring of the join. -/
theorem mem_joinComma_sub (a : String) :
    ∀ l : List String, a ∈ l → a.data <:+: (joinComma l).data := by
  intro l
  induction l with
  | nil => intro h; exact absurd h (List.not_mem_nil a)
  | cons x rest ih =>
    intro h
    cases rest with
    | nil =>
      rcases List.mem_cons.mp h with h' | h'
      · subst h'
        exact List.infix_rfl
      · exact absurd h' (List.not_mem_nil a)
    | cons y rest' =>
      rcases List.mem_cons.mp h with h' | h'
      · subst h'
        show a.data <:+: (a ++ ", " ++ joinComma (y :: rest')).data
        rw [String.data_append, String.data_append]
        exact ((List.prefix_append a.data _).trans
          (List.prefix_append _ _)).isInfix
      · have h2 := ih h'
        show a.data <:+: (x ++ ", " ++ joinComma (y :: rest')).data
        rw [String.data_append, String.data_append]
        exact h2.trans (List.suffix_append _ _).isInfix

/-- Every missing app named in the gate's error message occurs in that
message as a substring. -/
theorem pyIn_connectMsg_of_mem (a : String) (l : List String) (h : a ∈ l) :
    pyIn a (connectMsg l) = true := by
  unfold pyIn connectMsg
  rw [decide_eq_true_iff, String.data_append]
  exact (mem_joinComma_sub a l h).trans (List.suffix_append _ _).isInfix

/-- The gate's error message always carries the connect instruction. -/
theorem pyIn_please_connect (l : List String) :
    pyIn "Please connect" (connectMsg l) = true := by
  unfold pyIn connectMsg
  rw [decide_eq_true_iff, String.data_append]
  have h1 : ("Please connect").data
      <+: ("Please connect the following apps first: ").data := by decide
  exact (h1.trans (List.prefix_append _ _)).isInfix

/-- Claim C4: for every query and user, whenever any domain the query
requires is not among the user's connected apps, `process_query` raises
the gate's `ValueError` — whose message names that missing domain and
instructs the user to connect it — and no run is attempted; equivalently,
a run is attempted only once every required domain is connected. -/
theorem C4_missing_connection_blocks_run (query : String)
    (connected : List String) (app : String)
    (hreq : app ∈ required_apps query) (hconn : app ∉ connected) :
    (process_query_gate query connected).outcome
        = .error (connectMsg ((required_apps query).filter
            (fun a => !connected.contains a))) ∧
    pyIn app (connectMsg ((required_apps query).filter
        (fun a => !connected.contains a))) = true ∧
    pyIn "Please connect" (connectMsg ((required_apps query).filter
        (fun a => !connected.contains a))) = true ∧
    (process_query_gate query connected).runAttempted = false := by
  have hmiss : app ∈ (required_apps query).filter
      (fun a => !connected.contains a) :=
    List.mem_filter.mpr ⟨hreq, by simpa using hconn⟩
  have hcheck : check_required_apps query connected
      = .error (connectMsg ((required_apps query).filter
          (fun a => !connected.contains a))) := by
    unfold check_required_apps
    rw [if_neg (by simp only [List.isEmpty_iff]; exact List.ne_nil_of_mem hreq),
      if_neg (by simp only [List.isEmpty_iff]; exact List.ne_nil_of_mem hmiss)]
  refine ⟨?_, pyIn_connectMsg_of_mem app _ hmiss, pyIn_please_connect _, ?_⟩
  · unfold process_query_gate
    rw [hcheck]
  · unfold process_query_gate
    rw [hcheck]

/-- Witness for C4: a calendar query against a user who has not connected
googlecalendar. -/
theorem C4_witness :
    (process_query_gate "schedule a meeting" []).outcome
        = .error (connectMsg ((required_apps "schedule a meeting").filter
            (fun a => !([] : List String).contains a))) ∧
    pyIn "googlecalendar" (connectMsg ((required_apps "schedule a meeting").filter
        (fun a => !([] : List String).contains a))) = true ∧
    pyIn "Please connect" (connectMsg ((required_apps "schedule a meeting").filter
        (fun a => !([] : List String).contains a))) = true ∧
    (process_query_gate "schedule a meeting" []).runAttempted = false :=
  C4_missing_connection_blocks_run "schedule a meeting" [] "googlecalendar"
    (by decide) (by decide)

/-! ## C7: bounded chat history -/

/-- The history update in closed form: append, then drop all but the last
five. -/
theorem updateHistory_eq (h : List ChatEntry) (e : ChatEntry) :
    updateHistory h e = (h ++ [e]).drop (h.length + 1 - 5) := by
  unfold updateHistory
  by_cases hlen : (h ++ [e]).length > 5
  · rw [if_pos hlen]
    simp [List.length_append, List.length_singleton]
  · rw [if_neg hlen]
    have : h.length + 1 - 5 = 0 := by
      simp [List.length_append, List.length_singleton] at hlen
      omega
    rw [this, List.drop_zero]

/-- Every single history write leaves at most five entries. -/
theorem updateHistory_length_le (h : List ChatEntry) (e : ChatEntry) :
    (updateHistory h e).length ≤ 5 := by
  rw [updateHistory_eq, List.length_drop, List.length_append,
    List.length_singleton]
  omega

/-- Iterated history writes keep the bound. -/
theorem foldl_updateHistory_length_le :
    ∀ (es : List ChatEntry) (h0 : List ChatEntry), h0.length ≤ 5 →
      (List.foldl updateHistory h0 es).length ≤ 5 := by
  intro es
  induction es with
  | nil => intro h0 hl; exact hl
  | cons e es ih =>
    intro h0 _
    rw [List.foldl_cons]
    exact ih (updateHistory h0 e) (updateHistory_length_le h0 e)

/-- Dropping before or after an append agree. -/
theorem drop_append_drop {α : Type} (L es : List α) (j t : Nat)
    (hj : j ≤ L.length) :
    (L.drop j ++ es).drop t = (L ++ es).drop (j + t) := by
  rw [← List.drop_drop, List.drop_append_of_le_length hj]

/-- Closed form of the iterated history update. -/
theorem foldl_updateHistory_eq :
    ∀ (es : List ChatEntry) (h0 : List ChatEntry), h0.length ≤ 5 →
      List.foldl updateHistory h0 es
        = (h0 ++ es).drop (h0.length + es.length - 5) := by
  intro es
  induction es with
  | nil =>
    intro h0 hl
    simp only [List.foldl_nil, List.append_nil, List.length_nil, Nat.add_zero]
    have : h0.length - 5 = 0 := by omega
    rw [this, List.drop_zero]
  | cons e es ih =>
    intro h0 hl
    rw [List.foldl_cons, ih (updateHistory h0 e) (updateHistory_length_le h0 e)]
    rw [updateHistory_eq h0 e]
    have hj : h0.length + 1 - 5 ≤ (h0 ++ [e]).length := by
      simp [List.length_append]; omega
    rw [List.length_drop, drop_append_drop _ _ _ _ hj]
    have harith : h0.length + 1 - 5
        + ((h0 ++ [e]).length - (h0.length + 1 - 5) + es.length - 5)
        = h0.length + (e :: es).length - 5 := by
      simp only [List.length_append, List.length_cons, List.length_nil]
      omega
    rw [harith, List.append_assoc, List.singleton_append]

/-- Claim C7: starting from any persisted history within the bound, after
more than five runs the stored history is exactly the last five entries in
order (oldest evicted first), and no intermediate persisted state exceeds
five entries. -/
theorem C7_chat_history_bound (h0 es : List ChatEntry)
    (hl : h0.length ≤ 5) (hn : 5 < es.length) :
    List.foldl updateHistory h0 es = es.drop (es.length - 5) ∧
    ∀ n, (List.foldl updateHistory h0 (es.take n)).length ≤ 5 := by
  constructor
  · rw [foldl_updateHistory_eq es h0 hl]
    have : h0.length + es.length - 5 = h0.length + (es.length - 5) := by omega
    rw [this, List.drop_append]
  · intro n
    exact foldl_updateHistory_length_le (es.take n) h0 hl

/-- Witness for C7: six successive runs from an empty history retain
exactly the last five entries. -/
theorem C7_witness :
    List.foldl updateHistory [] es6 = es6.drop 1 :=
  (C7_chat_history_bound [] es6 (by decide) (by decide)).1

/-! ## C8: response sanitization -/

/-- Unfolding of one non-matching scan step of `replace3to2`. -/
theorem replace3to2_cons_eq (c : Char) (tl : List Char)
    (h : ∀ x y r, tl = x :: y :: r → ¬(c = '\n' ∧ x = '\n' ∧ y = '\n')) :
    replace3to2 (c :: tl) = c :: replace3to2 tl := by
  cases tl with
  | nil => rfl
  | cons x tl2 =>
    cases tl2 with
    | nil => rfl
    | cons y r =>
      have hunf : replace3to2 (c :: x :: y :: r)
          = if c = '\n' ∧ x = '\n' ∧ y = '\n'
            then '\n' :: '\n' :: replace3to2 r
            else c :: replace3to2 (x :: y :: r) := rfl
      rw [hunf, if_neg (h x y r rfl)]

/-- One replace pass never lengthens the text. -/
theorem replace3to2_length_le (s : List Char) :
    (replace3to2 s).length ≤ s.length := by
  induction s using replace3to2.induct with
  | case1 c1 c2 c3 rest h ih =>
    rw [show replace3to2 (c1 :: c2 :: c3 :: rest)
        = '\n' :: '\n' :: replace3to2 rest from by
      rw [show replace3to2 (c1 :: c2 :: c3 :: rest)
          = if c1 = '\n' ∧ c2 = '\n' ∧ c3 = '\n'
            then '\n' :: '\n' :: replace3to2 rest
            else c1 :: replace3to2 (c2 :: c3 :: rest) from rfl, if_pos h]]
    simp only [List.length_cons]
    omega
  | case2 c1 c2 c3 rest h ih =>
    rw [replace3to2_cons_eq c1 (c2 :: c3 :: rest)
      (fun x y r hr => by
        cases hr
        exact h)]
    simpa using ih
  | case3 c rest h ih =>
    rw [replace3to2_cons_eq c rest
      (fun x y r hr => absurd hr (fun hh => h x y r hh))]
    simpa using ih
  | case4 => simp [replace3to2]

/-- Unfolding of one matching scan step of `replace3to2`. -/
theorem replace3to2_triple_eq (rest : List Char) :
    replace3to2 ('\n' :: '\n' :: '\n' :: rest) = '\n' :: '\n' :: replace3to2 rest := by
  rw [show replace3to2 ('\n' :: '\n' :: '\n' :: rest)
      = if ('\n' : Char) = '\n' ∧ ('\n' : Char) = '\n' ∧ ('\n' : Char) = '\n'
        then '\n' :: '\n' :: replace3to2 rest
        else '\n' :: replace3to2 ('\n' :: '\n' :: rest) from rfl,
    if_pos ⟨rfl, rfl, rfl⟩]

/-- A replace pass over a text containing the triple-newline pattern
strictly shortens it, so the while loop terminates. -/
theorem replace3to2_length_lt (s : List Char)
    (h3 : ['\n', '\n', '\n'] <:+: s) :
    (replace3to2 s).length < s.length := by
  induction s using replace3to2.induct with
  | case1 c1 c2 c3 rest h ih =>
    obtain ⟨rfl, rfl, rfl⟩ := h
    rw [replace3to2_triple_eq]
    have := replace3to2_length_le rest
    simp only [List.length_cons]
    omega
  | case2 c1 c2 c3 rest h ih =>
    rw [replace3to2_cons_eq c1 (c2 :: c3 :: rest)
      (fun x y r hr => by cases hr; exact h)]
    rcases List.infix_cons_iff.mp h3 with hp | ht
    · exact absurd ⟨(List.cons_prefix_cons.mp hp).1.symm,
        (List.cons_prefix_cons.mp (List.cons_prefix_cons.mp hp).2).1.symm,
        (List.cons_prefix_cons.mp
          (List.cons_prefix_cons.mp (List.cons_prefix_cons.mp hp).2).2).1.symm⟩ h
    · have hlt := ih ht
      simp only [List.length_cons] at hlt ⊢
      omega
  | case3 c rest h ih =>
    exfalso
    have hlen := h3.length_le
    cases rest with
    | nil => simp at hlen
    | cons x tl2 =>
      cases tl2 with
      | nil => simp at hlen
      | cons y r => exact h x y r rfl
  | case4 => simp at h3

/-- A newline-free list that starts a text extending past a newline
boundary in fact stays before the boundary. -/
theorem noNl_prefix_append_newline (m : List Char) (hm : '\n' ∉ m) :
    ∀ (x y : List Char), m <+: x ++ '\n' :: y → m <+: x := by
  induction m with
  | nil => intro x y _; exact List.nil_prefix
  | cons a m' ih =>
    intro x y hp
    have ha : a ≠ '\n' := fun h => hm (h ▸ List.mem_cons_self a m')
    have hm' : '\n' ∉ m' := fun h => hm (List.mem_cons_of_mem a h)
    cases x with
    | nil =>
      exact absurd (List.cons_prefix_cons.mp hp).1 ha
    | cons b x' =>
      rcases List.cons_prefix_cons.mp hp with ⟨hab, hp'⟩
      exact List.cons_prefix_cons.mpr ⟨hab, ih hm' x' y hp'⟩

/-- A newline-free contiguous segment of `x ++ newline :: y` lies wholly
inside `x` or wholly inside `y`. -/
theorem noNl_infix_append_newline (m : List Char) (hm : '\n' ∉ m) :
    ∀ (x y : List Char), m <:+: x ++ '\n' :: y → m <:+: x ∨ m <:+: y := by
  intro x
  induction x with
  | nil =>
    intro y hi
    rcases List.infix_cons_iff.mp hi with hp | ht
    · cases m with
      | nil => exact Or.inl List.nil_infix
      | cons a m' =>
        exact absurd (List.cons_prefix_cons.mp hp).1
          (fun h => hm (h ▸ List.mem_cons_self a m'))
    · exact Or.inr ht
  | cons b x' ih =>
    intro y hi
    rcases List.infix_cons_iff.mp hi with hp | ht
    · cases m with
      | nil => exact Or.inl List.nil_infix
      | cons a m' =>
        rcases List.cons_prefix_cons.mp hp with ⟨hab, hp'⟩
        have hm' : '\n' ∉ m' := fun h => hm (List.mem_cons_of_mem a h)
        exact Or.inl (List.cons_prefix_cons.mpr
          ⟨hab, noNl_prefix_append_newline m' hm' x' y hp'⟩).isInfix
    · rcases ih y ht with h | h
      · exact Or.inl (List.infix_cons h)
      · exact Or.inr h

/-- A newline-free list starting a text also starts its first line. -/
theorem noNl_prefix_takeWhile (m : List Char) (hm : '\n' ∉ m) :
    ∀ s : List Char, m <+: s → m <+: s.takeWhile (fun c => c != '\n') := by
  induction m with
  | nil => intro s _; exact List.nil_prefix
  | cons a m' ih =>
    intro s hp
    cases s with
    | nil => exact absurd hp (by simp)
    | cons b s' =>
      rcases List.cons_prefix_cons.mp hp with ⟨hab, hp'⟩
      have ha : a ≠ '\n' := fun h => hm (h ▸ List.mem_cons_self a m')
      have hb : (b != '\n') = true := by
        subst hab
        simpa using ha
      rw [List.takeWhile_cons, hb]
      have hm' : '\n' ∉ m' := fun h => hm (List.mem_cons_of_mem a h)
      exact List.cons_prefix_cons.mpr ⟨hab, ih hm' s' hp'⟩

/-- A replace pass only rewrites at newlines, so the leading newline-free
segment is unchanged. -/
theorem takeWhile_replace3to2 (s : List Char) :
    (replace3to2 s).takeWhile (fun c => c != '\n')
      = s.takeWhile (fun c => c != '\n') := by
  induction s using replace3to2.induct with
  | case1 c1 c2 c3 rest h ih =>
    obtain ⟨rfl, rfl, rfl⟩ := h
    rw [replace3to2_triple_eq]
    simp [List.takeWhile_cons]
  | case2 c1 c2 c3 rest h ih =>
    rw [replace3to2_cons_eq c1 (c2 :: c3 :: rest)
      (fun x y r hr => by cases hr; exact h)]
    by_cases hc : c1 = '\n'
    · subst hc
      simp [List.takeWhile_cons]
    · rw [List.takeWhile_cons, List.takeWhile_cons]
      have : (c1 != '\n') = true := by simpa using hc
      rw [this, ih]
  | case3 c rest h ih =>
    rw [replace3to2_cons_eq c rest (fun x y r hr => absurd hr (h x y r))]
    by_cases hc : c = '\n'
    · subst hc
      simp [List.takeWhile_cons]
    · rw [List.takeWhile_cons, List.takeWhile_cons]
      have : (c != '\n') = true := by simpa using hc
      rw [this, ih]
  | case4 => rfl

/-- A replace pass creates no new newline-free contiguous segments. -/
theorem infix_replace3to2 (m : List Char) (hm : '\n' ∉ m) :
    ∀ s : List Char, m <:+: replace3to2 s → m <:+: s := by
  intro s
  induction s using replace3to2.induct with
  | case1 c1 c2 c3 rest h ih =>
    obtain ⟨rfl, rfl, rfl⟩ := h
    rw [replace3to2_triple_eq]
    intro hi
    have hnil : ∀ (mm t : List Char), mm <+: '\n' :: t → '\n' ∉ mm → mm = [] := by
      intro mm t hp hmm
      cases mm with
      | nil => rfl
      | cons a mm' =>
        exact absurd (List.cons_prefix_cons.mp hp).1
          (fun hh => hmm (hh ▸ List.mem_cons_self a mm'))
    rcases List.infix_cons_iff.mp hi with hp | ht
    · rw [hnil m _ hp hm]
      exact List.nil_infix
    · rcases List.infix_cons_iff.mp ht with hp | ht2
      · rw [hnil m _ hp hm]
        exact List.nil_infix
      · exact List.infix_cons (List.infix_cons (List.infix_cons (ih ht2)))
  | case2 c1 c2 c3 rest h ih =>
    rw [replace3to2_cons_eq c1 (c2 :: c3 :: rest)
      (fun x y r hr => by cases hr; exact h)]
    intro hi
    rcases List.infix_cons_iff.mp hi with hp | ht
    · cases m with
      | nil => exact List.nil_infix
      | cons a m' =>
        rcases List.cons_prefix_cons.mp hp with ⟨hab, hp'⟩
        have hm' : '\n' ∉ m' := fun hh => hm (List.mem_cons_of_mem a hh)
        have h1 : m' <+: (replace3to2 (c2 :: c3 :: rest)).takeWhile
            (fun c => c != '\n') :=
          noNl_prefix_takeWhile m' hm' _ hp'
        rw [takeWhile_replace3to2] at h1
        have h2 : m' <+: c2 :: c3 :: rest :=
          h1.trans ( List.takeWhile_prefix _)
        exact (List.cons_prefix_cons.mpr ⟨hab, h2⟩).isInfix
    · exact List.infix_cons (ih ht)
  | case3 c rest h ih =>
    rw [replace3to2_cons_eq c rest (fun x y r hr => absurd hr (h x y r))]
    intro hi
    rcases List.infix_cons_iff.mp hi with hp | ht
    · cases m with
      | nil => exact List.nil_infix
      | cons a m' =>
        rcases List.cons_prefix_cons.mp hp with ⟨hab, hp'⟩
        have hm' : '\n' ∉ m' := fun hh => hm (List.mem_cons_of_mem a hh)
        have h1 : m' <+: (replace3to2 rest).takeWhile (fun c => c != '\n') :=
          noNl_prefix_takeWhile m' hm' _ hp'
        rw [takeWhile_replace3to2] at h1
        have h2 : m' <+: rest := h1.trans ( List.takeWhile_prefix _)
        exact (List.cons_prefix_cons.mpr ⟨hab, h2⟩).isInfix
    · exact List.infix_cons (ih ht)
  | case4 => intro hi; exact hi

/-- The collapsing loop creates no new newline-free contiguous
segments. -/
theorem infix_collapseGo (m : List Char) (hm : '\n' ∉ m) :
    ∀ (fuel : Nat) (s : List Char), m <:+: collapseGo fuel s → m <:+: s := by
  intro fuel
  induction fuel with
  | zero => intro s h; exact h
  | succ fuel ih =>
    intro s h
    rw [collapseGo] at h
    by_cases hc : contains3 s = true
    · rw [if_pos hc] at h
      exact infix_replace3to2 m hm s (ih (replace3to2 s) h)
    · rwa [if_neg hc] at h

/-- With fuel at least the text length, the collapsing loop runs to
completion: no triple newline survives. -/
theorem collapseGo_no_triple :
    ∀ (fuel : Nat) (s : List Char), s.length ≤ fuel →
      ¬ (['\n', '\n', '\n'] <:+: collapseGo fuel s) := by
  intro fuel
  induction fuel with
  | zero =>
    intro s hs
    have : s = [] := List.eq_nil_of_length_eq_zero (Nat.le_zero.mp hs)
    subst this
    rw [collapseGo]
    simp
  | succ fuel ih =>
    intro s hs
    rw [collapseGo]
    by_cases hc : contains3 s = true
    · rw [if_pos hc]
      have h3 : ['\n', '\n', '\n'] <:+: s := by
        have := of_decide_eq_true hc
        exact this
      exact ih (replace3to2 s)
        (by have := replace3to2_length_lt s h3; omega)
    · rw [if_neg hc]
      intro hcon
      exact hc (decide_eq_true hcon)

/-- Stripping only removes characters, so any contiguous segment of the
stripped text occurs in the original. -/
theorem infix_pyStrip (m s : List Char) (h : m <:+: pyStrip s) : m <:+: s := by
  unfold pyStrip at h
  refine h.trans ?_
  have h1 : s.dropWhile isSpaceChar <:+ s := List.dropWhile_suffix _
  have h2 : (s.dropWhile isSpaceChar).reverse.dropWhile isSpaceChar
      <:+ (s.dropWhile isSpaceChar).reverse := List.dropWhile_suffix _
  have h3 : ((s.dropWhile isSpaceChar).reverse.dropWhile isSpaceChar).reverse
      <+: (s.dropWhile isSpaceChar).reverse.reverse := by
    rw [ List.reverse_prefix]
    exact h2
  rw [List.reverse_reverse] at h3
  exact h3.isInfix.trans h1.isInfix

/-- A nonempty newline-free contiguous segment of a newline-join lies
within one of the joined lines. -/
theorem joinLines_infix_decomp (m : List Char) (hm : '\n' ∉ m) (hne : m ≠ []) :
    ∀ ls : List (List Char), m <:+: joinLines ls → ∃ l ∈ ls, m <:+: l := by
  intro ls
  induction ls with
  | nil =>
    intro h
    rw [joinLines] at h
    exact absurd (List.infix_nil.mp h) hne
  | cons l ls ih =>
    intro h
    cases ls with
    | nil =>
      rw [joinLines] at h
      exact ⟨l, List.mem_cons_self l [], h⟩
    | cons l2 ls2 =>
      have hj : joinLines (l :: l2 :: ls2) = l ++ '\n' :: joinLines (l2 :: ls2) := rfl
      rw [hj] at h
      rcases noNl_infix_append_newline m hm l (joinLines (l2 :: ls2)) h with h1 | h2
      · exact ⟨l, List.mem_cons_self l _, h1⟩
      · obtain ⟨l', hl', hml'⟩ := ih h2
        exact ⟨l', List.mem_cons_of_mem l hl', hml'⟩

/-- The first line of a text starts the text. -/
theorem splitLines_head_prefix_aux :
    ∀ (s : List Char) (l : List Char) (ls : List (List Char)),
      splitLines s = l :: ls → l <+: s := by
  intro s
  induction s with
  | nil =>
    intro l ls h
    rw [splitLines] at h
    cases h
    exact List.nil_prefix
  | cons c rest ih =>
    intro l ls h
    rw [splitLines] at h
    by_cases hc : c = '\n'
    · rw [if_pos hc] at h
      cases h
      exact List.nil_prefix
    · rw [if_neg hc] at h
      cases hsp : splitLines rest with
      | nil =>
        rw [hsp] at h
        cases h
        exact List.cons_prefix_cons.mpr ⟨rfl, List.nil_prefix⟩
      | cons l0 ls0 =>
        rw [hsp] at h
        injection h with h1 h2
        subst h1
        exact List.cons_prefix_cons.mpr ⟨rfl, ih l0 ls0 hsp⟩

/-- Every line of a text is a contiguous segment of it. -/
theorem splitLines_mem_sub :
    ∀ (s : List Char) (l : List Char), l ∈ splitLines s → l <:+: s := by
  intro s
  induction s with
  | nil =>
    intro l h
    rw [splitLines] at h
    rcases List.mem_cons.mp h with h' | h'
    · subst h'; exact List.nil_infix
    · exact absurd h' (List.not_mem_nil l)
  | cons c rest ih =>
    intro l h
    rw [splitLines] at h
    by_cases hc : c = '\n'
    · rw [if_pos hc] at h
      rcases List.mem_cons.mp h with h' | h'
      · subst h'; exact List.nil_infix
      · exact List.infix_cons (ih l h')
    · rw [if_neg hc] at h
      cases hsp : splitLines rest with
      | nil =>
        rw [hsp] at h
        rcases List.mem_cons.mp h with h' | h'
        · subst h'
          exact (List.cons_prefix_cons.mpr ⟨rfl, List.nil_prefix⟩).isInfix
        · exact absurd h' (List.not_mem_nil l)
      | cons l0 ls0 =>
        rw [hsp] at h
        rcases List.mem_cons.mp h with h' | h'
        · subst h'
          exact (List.cons_prefix_cons.mpr
            ⟨rfl, splitLines_head_prefix_aux rest l0 ls0 hsp⟩).isInfix
        · have : l ∈ splitLines rest := by
            rw [hsp]
            exact List.mem_cons_of_mem l0 h'
          exact List.infix_cons (ih l this)

/-- The diagnostic markers are nonempty and contain no newline. -/
theorem markers_noNl : ∀ m ∈ markers, '\n' ∉ m.data ∧ m.data ≠ [] := by decide

/-- No diagnostic marker occurs anywhere in the sanitized text. -/
theorem cleanChars_no_marker (t : List Char) (m : String) (hm : m ∈ markers) :
    ¬ (m.data <:+: cleanChars t) := by
  intro hinf
  obtain ⟨hnl, hne⟩ := markers_noNl m hm
  unfold cleanChars at hinf
  have h1 := infix_pyStrip _ _ hinf
  unfold collapseNewlines at h1
  have h2 := infix_collapseGo m.data hnl _ _ h1
  obtain ⟨l, hl, hml⟩ := joinLines_infix_decomp m.data hnl hne _ h2
  have hkeep : keepLine l = true := (List.mem_filter.mp hl).2
  unfold keepLine at hkeep
  rw [Bool.not_eq_true'] at hkeep
  have hfalse := List.any_eq_false.mp hkeep m hm
  rw [decide_eq_true_iff] at hfalse
  exact hfalse hml

/-- Claim C8: for every response text, the output of `clean_response`
contains no line with any of the internal diagnostic markers, and no run
of three or more consecutive newlines — runs are collapsed so at most a
single blank line remains. -/
theorem C8_clean_response_sanitized (t : String) :
    (∀ l ∈ splitLines (clean_response t).data, ∀ m ∈ markers,
        ¬ (m.data <:+: l)) ∧
    ¬ (['\n', '\n', '\n'] <:+: (clean_response t).data) := by
  constructor
  · intro l hl m hm hinf
    have hline : l <:+: (clean_response t).data := splitLines_mem_sub _ l hl
    exact cleanChars_no_marker t.data m hm (hinf.trans hline)
  · show ¬ (['\n', '\n', '\n'] <:+: cleanChars t.data)
    intro h
    unfold cleanChars at h
    have h1 := infix_pyStrip _ _ h
    unfold collapseNewlines at h1
    exact collapseGo_no_triple _ _ (Nat.le_refl _) h1
